import Mathlib

set_option maxHeartbeats 1000000

/-!
Shallow embedding of `src/main.py` (VA-Synth): the pipeline orchestration and
audio-chunking core.  Waveforms are modelled as lists indexed at millisecond
granularity, because pydub slices an `AudioSegment` by milliseconds; machine
integers are `Nat`.  External collaborators (recognition, correction,
synthesis backends and the codec libraries) are parameters of the model.
-/

/-! ### String literals appearing in src/main.py -/

def sp : String := " "

def lin16 : String := "LINEAR16"

def langEN : String := "en-US"

def msgTransErr : String := "Error during transcription: "

def msgCorrErr : String := "Error during transcription correction: "

def msgApiErr : String := "Error from Azure API: "

def msgDash : String := " - "

def msgFmtErr : String := "Unexpected response format from Azure OpenAI."

def msgContentKey : String := "content"

def emptyS : String := ""

/-! ### Chunker (src/main.py, `split_audio_into_chunks`, lines 54-63) -/

/-- Python `range(start, stop, step)` for a positive step. -/
def pyRange (start stop step : Nat) : List Nat :=
  (List.range ((stop - start + step - 1) / step)).map (fun k => start + k * step)

/-- `split_audio_into_chunks` (lines 54-63): for `i in range(0, len(audio),
chunk_length_ms)` take the pydub slice `audio[i : i + chunk_length_ms]`.
The Python default for `chunk_length_ms` is 60000; callers in this file pass
it explicitly. -/
def split_audio_into_chunks {α : Type} (audio : List α) (chunk_length_ms : Nat) :
    List (List α) :=
  (pyRange 0 audio.length chunk_length_ms).map
    (fun i => (audio.drop i).take chunk_length_ms)

/-! ### Audio normalizer (src/main.py, `compress_audio`, lines 40-52) -/

/-- A pydub `AudioSegment` as `compress_audio` observes it: its reported
loudness `dBFS` is the loudness of the raw recording shifted by the
accumulated applied gain.  This is the exact-arithmetic model of
`AudioSegment.apply_gain`; the 16-bit quantization performed inside the
external codec library is out of scope. -/
structure AudioSegment where
  baseDBFS : ℚ
  gain : ℚ
deriving DecidableEq

def AudioSegment.dBFS (a : AudioSegment) : ℚ := a.baseDBFS + a.gain

/-- pydub `apply_gain`: shifts loudness by `c` dB. -/
def applyGain (a : AudioSegment) (c : ℚ) : AudioSegment := ⟨a.baseDBFS, a.gain + c⟩

/-- `compress_audio` (lines 40-52): `change_in_dBFS = target_dBFS - audio.dBFS`
followed by `audio.apply_gain(change_in_dBFS)`.  The Python default target is
-20.0 dBFS. -/
def compress_audio (a : AudioSegment) (target_dBFS : ℚ) : AudioSegment :=
  applyGain a (target_dBFS - a.dBFS)

/-! ### Transcription stage (src/main.py, `transcribe_audio`, lines 65-104) -/

structure RecognitionConfig where
  encoding : String
  sample_rate_hertz : Nat
  language_code : String
deriving DecidableEq

/-- The compressed waveform as `transcribe_audio` observes it: the sample rate
read from the wave header (lines 72-73), the byte size reported by
`os.path.getsize` (line 89), and the pydub content at millisecond
granularity. -/
structure WaveAudio where
  sampleRate : Nat
  byteSize : Nat
  samples : List Int
deriving DecidableEq

/-- The external recognition backend: maps a request (config plus chunk
content) either to the list of per-result first-alternative transcripts or to
a raised exception carrying a message. -/
def RecognitionClient : Type :=
  RecognitionConfig → List Int → Except String (List String)

/-- The `RecognitionConfig` built at lines 82-86: LINEAR16 encoding, the
sample rate detected from the wave header, and the fixed language code. -/
def cfgOf (a : WaveAudio) : RecognitionConfig := ⟨lin16, a.sampleRate, langEN⟩

/-- The chunk loop of `transcribe_audio` (lines 92-96): one request per chunk
in list order, extending the accumulated transcript list, aborting at the
first raised exception.  Returns the request trace and the outcome. -/
def transcribeLoop (client : RecognitionClient) (config : RecognitionConfig) :
    List (List Int) → List (RecognitionConfig × List Int) × Except String (List String)
  | [] => ([], Except.ok [])
  | c :: cs =>
    match client config c with
    | Except.error e => ([(config, c)], Except.error e)
    | Except.ok segs =>
      let r := transcribeLoop client config cs
      ((config, c) :: r.1,
        match r.2 with
        | Except.error e => Except.error e
        | Except.ok ts => Except.ok (segs ++ ts))

structure TranscribeResult where
  requests : List (RecognitionConfig × List Int)
  value : Option String
  errors : List String
deriving DecidableEq

/-- `transcribe_audio` (lines 65-104) after the compress step: builds a single
`RecognitionConfig` from the header sample rate, chunks only when the file
size exceeds 10 MiB (line 89), joins the recognized transcripts with single
spaces, and turns a raised exception into an `st.error` message plus `None`. -/
def transcribe_audio (client : RecognitionClient) (compressed : WaveAudio) :
    TranscribeResult :=
  let config := cfgOf compressed
  if compressed.byteSize > 10 * 1024 * 1024 then
    let r := transcribeLoop client config (split_audio_into_chunks compressed.samples 60000)
    match r.2 with
    | Except.ok ts => ⟨r.1, some (String.intercalate sp ts), []⟩
    | Except.error e => ⟨r.1, none, [msgTransErr ++ e]⟩
  else
    match client config compressed.samples with
    | Except.ok ts => ⟨[(config, compressed.samples)], some (String.intercalate sp ts), []⟩
    | Except.error e => ⟨[(config, compressed.samples)], none, [msgTransErr ++ e]⟩

/-- Index of the first chunk whose recognition call raises, if any. -/
def firstFailIdx (client : RecognitionClient) (config : RecognitionConfig) :
    List (List Int) → Option Nat
  | [] => none
  | c :: cs =>
    match client config c with
    | Except.error _ => some 0
    | Except.ok _ => (firstFailIdx client config cs).map (· + 1)

/-! ### Correction stage (src/main.py, `correct_transcription`, lines 106-131) -/

/-- One entry of the `choices` array; `none` models a JSON object missing the
`message`/`content` key, whose access raises a `KeyError`. -/
structure ChoiceJson where
  message_content : Option String
deriving DecidableEq

/-- The backend HTTP response as `correct_transcription` observes it:
`has_choices` models `choices in response_data`. -/
structure CorrectionResponse where
  status_code : Nat
  body_text : String
  has_choices : Bool
  choices : List ChoiceJson
deriving DecidableEq

/-- `correct_transcription` (lines 106-131).  The input is `Except.error e`
when `requests.post` (or JSON decoding) raises with message `e`.  Every
failure ends in `st.error(...)` plus `return None`; a 200 response with a
present `choices[0].message.content` is returned verbatim, with no
emptiness check. -/
def correct_transcription (resp : Except String CorrectionResponse) :
    Option String × List String :=
  match resp with
  | Except.error e => (none, [msgCorrErr ++ e])
  | Except.ok r =>
    if r.status_code = 200 then
      match r.has_choices, r.choices with
      | true, c :: _ =>
        (match c.message_content with
         | some content => (some content, [])
         | none => (none, [msgCorrErr ++ msgContentKey]))
      | _, _ => (none, [msgFmtErr])
    else (none, [msgApiErr ++ toString r.status_code ++ msgDash ++ r.body_text])

/-! ### Orchestrator (src/main.py, Streamlit block, lines 170-202) -/

inductive Stage where
  | extract | transcribe | correct | synthesize | mux
deriving DecidableEq

/-- Python truthiness of a stage result: `None` and the empty string are
falsy. -/
def truthyStr : Option String → Bool
  | none => false
  | some s => s != emptyS

/-- Python truthiness of a bytes result: `None` and empty bytes are falsy. -/
def truthyBytes : Option (List Nat) → Bool
  | none => false
  | some bs => !bs.isEmpty

/-- The five stage calls of the Streamlit block, as functions from the data
they receive to the pair (returned value, error messages they displayed). -/
structure PipelineEnv where
  extract_audio : Option String × List String
  transcribe : String → Option String × List String
  correct : String → Option String × List String
  synthesize : String → Option (List Nat) × List String
  replace : List Nat → Option String × List String

structure RunResult where
  invoked : List Stage
  errors : List String
  output : Option String
deriving DecidableEq

/-- The nested `if` chain of lines 170-202: each stage runs only inside the
truthiness check of the previous result; the download is offered only when
the mux result is truthy. -/
def run_pipeline (env : PipelineEnv) : RunResult :=
  let r1 := env.extract_audio
  if truthyStr r1.1 then
    let r2 := env.transcribe (r1.1.getD emptyS)
    if truthyStr r2.1 then
      let r3 := env.correct (r2.1.getD emptyS)
      if truthyStr r3.1 then
        let r4 := env.synthesize (r3.1.getD emptyS)
        if truthyBytes r4.1 then
          let r5 := env.replace (r4.1.getD [])
          if truthyStr r5.1 then
            ⟨[Stage.extract, Stage.transcribe, Stage.correct, Stage.synthesize, Stage.mux],
              r1.2 ++ r2.2 ++ r3.2 ++ r4.2 ++ r5.2, r5.1⟩
          else
            ⟨[Stage.extract, Stage.transcribe, Stage.correct, Stage.synthesize, Stage.mux],
              r1.2 ++ r2.2 ++ r3.2 ++ r4.2 ++ r5.2, none⟩
        else
          ⟨[Stage.extract, Stage.transcribe, Stage.correct, Stage.synthesize],
            r1.2 ++ r2.2 ++ r3.2 ++ r4.2, none⟩
      else ⟨[Stage.extract, Stage.transcribe, Stage.correct], r1.2 ++ r2.2 ++ r3.2, none⟩
    else ⟨[Stage.extract, Stage.transcribe], r1.2 ++ r2.2, none⟩
  else ⟨[Stage.extract], r1.2, none⟩

/-- The extraction result threaded through the Streamlit block. -/
def exVal (env : PipelineEnv) : Option String := (env.extract_audio).1

/-- The transcription result threaded through the Streamlit block. -/
def trVal (env : PipelineEnv) : Option String :=
  (env.transcribe ((exVal env).getD emptyS)).1

/-- The correction result threaded through the Streamlit block. -/
def coVal (env : PipelineEnv) : Option String :=
  (env.correct ((trVal env).getD emptyS)).1

/-- The synthesis result threaded through the Streamlit block. -/
def syVal (env : PipelineEnv) : Option (List Nat) :=
  (env.synthesize ((coVal env).getD emptyS)).1

/-- The mux result threaded through the Streamlit block. -/
def muVal (env : PipelineEnv) : Option String :=
  (env.replace ((syVal env).getD [])).1

def sA : String := "a"

def sB : String := "b"

/-! ### Temporary-file lifecycle (whole script) -/

/-- Symbolic identities for the temporary files, one per creation site. -/
inductive FileId where
  | upload | extracted | compressed | chunk (i : Nat) | muxtmp | output
deriving DecidableEq

/-- Where `extract_audio_from_video` can fail: before its temp file exists
(`VideoFileClip` raises) or after (`write_audiofile` or the pydub conversion
raises). -/
inductive ExtractOutcome where
  | loadFail | writeFail | ok
deriving DecidableEq

/-- Where `replace_audio_in_video` can fail: before the mp3 temp exists,
after it (`AudioFileClip` raises), or after the mp4 output temp also exists
(`write_videofile` raises). -/
inductive MuxOutcome where
  | loadFail | audioFail | writeFail | ok
deriving DecidableEq

/-- External outcomes of one run, for the file-lifecycle model. -/
structure FileEnv where
  extract : ExtractOutcome
  compressOk : Bool
  oversize : Bool
  numChunks : Nat
  recognizeOk : Bool
  transcriptTruthy : Bool
  correctTruthy : Bool
  synthTruthy : Bool
  mux : MuxOutcome

/-- `os.remove`: every temporary is created exactly once, so removing all
occurrences of its identity is faithful. -/
def removeFile (fs : List FileId) (f : FileId) : List FileId :=
  fs.filter (fun g => !(g == f))

/-- File effects of `extract_audio_from_video` (lines 22-38); returns the
files now live and whether a path was returned. -/
def extractFiles (fs : List FileId) (o : ExtractOutcome) : List FileId × Bool :=
  match o with
  | ExtractOutcome.loadFail => (fs, false)
  | ExtractOutcome.writeFail => (fs ++ [FileId.extracted], false)
  | ExtractOutcome.ok => (fs ++ [FileId.extracted], true)

/-- File effects of `transcribe_audio` (lines 65-104): `compress_audio`
allocates its temp (line 49), chunking allocates one temp per chunk (line
60), and none of them is ever removed.  The Bool is the truthiness of the
returned transcription. -/
def transcribeFiles (fs : List FileId) (env : FileEnv) : List FileId × Bool :=
  if env.compressOk then
    let fs1 := fs ++ [FileId.compressed]
    if env.oversize then
      (fs1 ++ (List.range env.numChunks).map FileId.chunk,
        env.recognizeOk && env.transcriptTruthy)
    else (fs1, env.recognizeOk && env.transcriptTruthy)
  else (fs, false)

/-- File effects of `replace_audio_in_video` (lines 151-168): the mp3 temp is
removed (line 164) only on the success path. -/
def replaceFiles (fs : List FileId) (m : MuxOutcome) : List FileId × Bool :=
  match m with
  | MuxOutcome.loadFail => (fs, false)
  | MuxOutcome.audioFail => (fs ++ [FileId.muxtmp], false)
  | MuxOutcome.writeFail => (fs ++ [FileId.muxtmp, FileId.output], false)
  | MuxOutcome.ok => (removeFile (fs ++ [FileId.muxtmp, FileId.output]) FileId.muxtmp, true)

/-- Whether the run reaches the `replace_audio_in_video` call. -/
def reachedMux (env : FileEnv) : Bool :=
  (env.extract == ExtractOutcome.ok) && env.compressOk && env.recognizeOk &&
    env.transcriptTruthy && env.correctTruthy && env.synthTruthy

/-- Temporary files still live when the Streamlit block ends: the uploaded
copy is created first (line 173) and removed last (line 202); the output file
is removed after the download is offered (line 200). -/
def pipelineFiles (env : FileEnv) : List FileId :=
  let e := extractFiles [FileId.upload] env.extract
  let final :=
    if e.2 then
      let t := transcribeFiles e.1 env
      if t.2 then
        if env.correctTruthy then
          if env.synthTruthy then
            let m := replaceFiles t.1 env.mux
            if m.2 then removeFile m.1 FileId.output else m.1
          else t.1
        else t.1
      else t.1
    else e.1
  removeFile final FileId.upload

/-! ### Concrete inputs used by counterexamples -/

/-- A 120000 ms waveform whose first and second minutes differ. -/
def bigSamples : List Int :=
  List.replicate 60000 0 ++ List.replicate 60000 1

/-- A compressed waveform over the 10 MiB ceiling with content `bigSamples`. -/
def bigAudio : WaveAudio := ⟨16000, 10485761, bigSamples⟩

def msgBoom : String := "boom"

def msgX : String := "x"

/-- A backend that raises exactly on the first minute of `bigSamples`. -/
def clientA : RecognitionClient := fun _ c =>
  if c.head? = some 0 then Except.error msgBoom else Except.ok [msgX]

/-- A backend that raises exactly on the second minute of `bigSamples`. -/
def clientB : RecognitionClient := fun _ c =>
  if c.head? = some 0 then Except.ok [msgX] else Except.error msgBoom

/-! ## Lemmas and claim theorems -/

/-- Auxiliary form of the chunker with the range arithmetic unfolded. -/
theorem split_audio_eq {α : Type} (audio : List α) (L : Nat) :
    split_audio_into_chunks audio L
      = (List.range ((audio.length + L - 1) / L)).map
          (fun k => (audio.drop (k * L)).take L) := by
  simp [split_audio_into_chunks, pyRange, List.map_map, Function.comp_def]

theorem split_audio_length {α : Type} (audio : List α) (L : Nat) :
    (split_audio_into_chunks audio L).length = (audio.length + L - 1) / L := by
  rw [split_audio_eq]; simp

theorem split_audio_get {α : Type} (audio : List α) (L k : Nat)
    (hk : k < (split_audio_into_chunks audio L).length) :
    (split_audio_into_chunks audio L).get ⟨k, hk⟩ = (audio.drop (k * L)).take L := by
  have hk3 : k < (audio.length + L - 1) / L := by
    rw [← split_audio_length audio L]; exact hk
  have hk2 : k < ((List.range ((audio.length + L - 1) / L)).map
      (fun j => (audio.drop (j * L)).take L)).length := by
    simpa using hk3
  have hq : (split_audio_into_chunks audio L)[k]? = some ((audio.drop (k * L)).take L) := by
    rw [split_audio_eq]
    rw [List.getElem?_eq_getElem hk2]
    simp only [List.getElem_map, List.getElem_range]
  rw [List.get_eq_getElem]
  rw [List.getElem?_eq_getElem hk] at hq
  exact Option.some.inj hq

/-- Number-of-chunk bookkeeping used in the concatenation induction. -/
theorem chunk_count_step (L d : Nat) (hL : 0 < L) (hd : 0 < d) :
    (d + L - 1) / L = ((d - L) + L - 1) / L + 1 := by
  have e1 : d + L - 1 = (d - 1) + L := by omega
  rw [e1, Nat.add_div_right _ hL]
  rcases le_or_lt d L with hle | hlt
  · have e2 : d - L = 0 := by omega
    have e3 : (d - 1) / L = 0 := Nat.div_eq_of_lt (by omega)
    rw [e2, e3]
    have e4 : (0 + L - 1) / L = 0 := Nat.div_eq_of_lt (by omega)
    rw [e4]
  · have e2 : d - L + L - 1 = (d - 1 - L) + L := by omega
    rw [e2, Nat.add_div_right _ hL]
    have e3 : d - 1 = (d - 1 - L) + L := by omega
    have e4 : (d - 1) / L = (d - 1 - L) / L + 1 := by
      conv_lhs => rw [e3]
      exact Nat.add_div_right _ hL
    rw [e4]

theorem split_flatten_aux {α : Type} (L : Nat) (hL : 0 < L) :
    ∀ (n : Nat) (audio : List α), audio.length ≤ n →
      ((List.range ((audio.length + L - 1) / L)).map
        (fun k => (audio.drop (k * L)).take L)).flatten = audio := by
  intro n
  induction n with
  | zero =>
    intro audio hlen
    have haudio : audio = [] := List.length_eq_zero.mp (Nat.le_zero.mp hlen)
    subst haudio
    have h0 : (List.length ([] : List α) + L - 1) / L = 0 := by
      simp only [List.length_nil]
      exact Nat.div_eq_of_lt (by omega)
    rw [h0]
    simp
  | succ n ih =>
    intro audio hlen
    cases audio with
    | nil =>
      have h0 : (List.length ([] : List α) + L - 1) / L = 0 := by
        simp only [List.length_nil]
        exact Nat.div_eq_of_lt (by omega)
      rw [h0]
      simp
    | cons a as =>
      have hd : 0 < (a :: as).length := by simp
      have hdrop : ((a :: as).drop L).length = (a :: as).length - L :=
        List.length_drop L (a :: as)
      have hdiv : ((a :: as).length + L - 1) / L
          = ((((a :: as).drop L).length + L - 1) / L) + 1 := by
        rw [hdrop]
        exact chunk_count_step L (a :: as).length hL hd
      rw [hdiv, List.range_succ_eq_map]
      simp only [List.map_cons, List.map_map, List.flatten_cons, Nat.zero_mul,
        List.drop_zero]
      have hcomp : ((fun k => ((a :: as).drop (k * L)).take L) ∘ Nat.succ)
          = fun k => (((a :: as).drop L).drop (k * L)).take L := by
        funext k
        simp only [Function.comp_apply, List.drop_drop, Nat.succ_mul]
        rw [Nat.add_comm (k * L) L]
      rw [hcomp]
      have hih := ih ((a :: as).drop L) (by rw [hdrop]; omega)
      rw [hih]
      exact List.take_append_drop L (a :: as)

theorem split_audio_flatten {α : Type} (audio : List α) (L : Nat) (hL : 0 < L) :
    (split_audio_into_chunks audio L).flatten = audio := by
  rw [split_audio_eq]
  exact split_flatten_aux L hL audio.length audio le_rfl

/-- Claim C1: for every waveform split by the chunker with a positive chunk
length, chunk `k` is exactly the contiguous slice of the waveform starting at
offset `k * L` (so chunks are contiguous and non-overlapping), and
concatenating the chunks in sequence order reproduces the waveform exactly. -/
theorem chunker_concat_reconstructs {α : Type} (audio : List α) (L : Nat) (hL : 0 < L) :
    (split_audio_into_chunks audio L).flatten = audio ∧
    ∀ k (hk : k < (split_audio_into_chunks audio L).length),
      (split_audio_into_chunks audio L).get ⟨k, hk⟩ = (audio.drop (k * L)).take L := by
  exact ⟨split_audio_flatten audio L hL, fun k hk => split_audio_get audio L k hk⟩

/-- Witness for C1 at a concrete waveform and chunk length. -/
theorem chunker_concat_reconstructs_wit :
    (split_audio_into_chunks [10, 20, 30] 2).flatten = [10, 20, 30] :=
  (chunker_concat_reconstructs [10, 20, 30] 2 (by decide)).1

/-- Claim C7: with the reference chunk length 60000 ms, the chunker yields
exactly `ceil(duration_ms / 60000)` chunks, every non-final chunk is the full
60000 ms, and the final chunk lasts `duration_ms mod 60000` ms (the full
60000 when the duration divides evenly). -/
theorem chunker_60000_shape {α : Type} (audio : List α) :
    (split_audio_into_chunks audio 60000).length = (audio.length + 60000 - 1) / 60000 ∧
    (∀ k (hk : k < (split_audio_into_chunks audio 60000).length),
      k + 1 < (split_audio_into_chunks audio 60000).length →
      ((split_audio_into_chunks audio 60000).get ⟨k, hk⟩).length = 60000) ∧
    (0 < audio.length →
      ((split_audio_into_chunks audio 60000).getLast?).map List.length
        = some (if audio.length % 60000 = 0 then 60000 else audio.length % 60000)) := by
  refine ⟨split_audio_length audio 60000, ?_, ?_⟩
  · intro k hk hk1
    rw [split_audio_get audio 60000 k hk]
    rw [split_audio_length] at hk1
    simp only [List.length_take, List.length_drop]
    omega
  · intro hpos
    have hne : 0 < (split_audio_into_chunks audio 60000).length := by
      rw [split_audio_length]; omega
    have hlast : (split_audio_into_chunks audio 60000).length - 1
        < (split_audio_into_chunks audio 60000).length := by omega
    rw [List.getLast?_eq_getElem?, List.getElem?_eq_getElem hlast]
    have hget := split_audio_get audio 60000
      ((split_audio_into_chunks audio 60000).length - 1) hlast
    simp only [List.get_eq_getElem] at hget
    rw [hget]
    simp only [Option.map_some', List.length_take, List.length_drop]
    rw [split_audio_length]
    congr 1
    by_cases hmod : audio.length % 60000 = 0
    · rw [if_pos hmod]
      omega
    · rw [if_neg hmod]
      omega

/-- Witness for C7 at a concrete one-chunk waveform. -/
theorem chunker_60000_shape_wit :
    ((split_audio_into_chunks [(5 : Nat)] 60000).getLast?).map List.length = some 1 := by
  have h := (chunker_60000_shape [(5 : Nat)]).2.2 (by decide)
  rw [h]
  decide

/-- Claim C9: renormalizing an already-normalized waveform at the same target
applies a zero gain change, so in the exact gain model the two waveforms are
equal and their loudness differs by 0 dB, within the 0.1 dB tolerance. -/
theorem normalizer_idempotent (a : AudioSegment) (t : ℚ) :
    compress_audio (compress_audio a t) t = compress_audio a t ∧
    |AudioSegment.dBFS (compress_audio (compress_audio a t) t)
      - AudioSegment.dBFS (compress_audio a t)| ≤ 1 / 10 := by
  have h : compress_audio (compress_audio a t) t = compress_audio a t := by
    simp only [compress_audio, applyGain, AudioSegment.dBFS]
    congr 1
    ring
  refine ⟨h, ?_⟩
  rw [h, sub_self, abs_zero]
  norm_num

/-- Claim C2: a stage of the Streamlit block is invoked exactly when every
earlier stage returned a truthy (non-`None`, non-empty) result; an output
video is offered only when all five stages returned truthy results; and when
extraction fails only the extraction stage ran and no output is produced. -/
theorem orchestrator_fail_fast (env : PipelineEnv) :
    (truthyStr (exVal env) = false →
      (run_pipeline env).invoked = [Stage.extract] ∧ (run_pipeline env).output = none) ∧
    (Stage.transcribe ∈ (run_pipeline env).invoked ↔ truthyStr (exVal env) = true) ∧
    (Stage.correct ∈ (run_pipeline env).invoked ↔
      truthyStr (exVal env) = true ∧ truthyStr (trVal env) = true) ∧
    (Stage.synthesize ∈ (run_pipeline env).invoked ↔
      truthyStr (exVal env) = true ∧ truthyStr (trVal env) = true ∧
      truthyStr (coVal env) = true) ∧
    (Stage.mux ∈ (run_pipeline env).invoked ↔
      truthyStr (exVal env) = true ∧ truthyStr (trVal env) = true ∧
      truthyStr (coVal env) = true ∧ truthyBytes (syVal env) = true) ∧
    ((run_pipeline env).output ≠ none →
      truthyStr (exVal env) = true ∧ truthyStr (trVal env) = true ∧
      truthyStr (coVal env) = true ∧ truthyBytes (syVal env) = true ∧
      truthyStr (muVal env) = true) := by
  unfold run_pipeline exVal trVal coVal syVal muVal
  dsimp only
  split_ifs with h1 h2 h3 h4 h5 <;>
    simp_all [exVal, trVal, coVal, syVal, muVal]

/-- Witness for C2: with a failing extraction only the extraction stage runs
and no output is produced. -/
theorem orchestrator_fail_fast_wit :
    (run_pipeline ⟨(none, []), fun _ => (none, []), fun _ => (none, []),
        fun _ => (none, []), fun _ => (none, [])⟩).invoked = [Stage.extract] ∧
    (run_pipeline ⟨(none, []), fun _ => (none, []), fun _ => (none, []),
        fun _ => (none, []), fun _ => (none, [])⟩).output = none :=
  (orchestrator_fail_fast ⟨(none, []), fun _ => (none, []), fun _ => (none, []),
    fun _ => (none, []), fun _ => (none, [])⟩).1 rfl

/-- Claim C10: a 200 response whose `choices[0].message.content` is the
empty string is returned by `correct_transcription` as the empty string with
no error displayed, and the Streamlit block then stops before synthesis with
no error message and no output video. -/
theorem empty_completion_silent_halt (r : CorrectionResponse)
    (rest : List ChoiceJson) (env : PipelineEnv) (pe tr : String)
    (h200 : r.status_code = 200) (hhc : r.has_choices = true)
    (hch : r.choices = ⟨some emptyS⟩ :: rest)
    (hex : env.extract_audio = (some pe, [])) (hpe : pe ≠ emptyS)
    (htr : env.transcribe pe = (some tr, [])) (htrne : tr ≠ emptyS)
    (hco : env.correct tr = correct_transcription (Except.ok r)) :
    correct_transcription (Except.ok r) = (some emptyS, []) ∧
    Stage.synthesize ∉ (run_pipeline env).invoked ∧
    Stage.mux ∉ (run_pipeline env).invoked ∧
    (run_pipeline env).errors = [] ∧
    (run_pipeline env).output = none := by
  have hcor : correct_transcription (Except.ok r) = (some emptyS, []) := by
    simp [correct_transcription, h200, hhc, hch]
  have hrun : run_pipeline env
      = ⟨[Stage.extract, Stage.transcribe, Stage.correct], [], none⟩ := by
    simp [run_pipeline, hex, htr, hco, hcor, truthyStr, hpe, htrne]
  refine ⟨hcor, ?_, ?_, ?_, ?_⟩ <;> rw [hrun] <;> simp

/-- Witness for C10 at a concrete 200/empty-completion response and a
pipeline whose earlier stages succeed without messages. -/
theorem empty_completion_silent_halt_wit :
    Stage.synthesize ∉ (run_pipeline ⟨(some sA, []), fun _ => (some sB, []),
        fun _ => correct_transcription (Except.ok ⟨200, emptyS, true, [⟨some emptyS⟩]⟩),
        fun _ => (some [1], []), fun _ => (some sA, [])⟩).invoked ∧
    (run_pipeline ⟨(some sA, []), fun _ => (some sB, []),
        fun _ => correct_transcription (Except.ok ⟨200, emptyS, true, [⟨some emptyS⟩]⟩),
        fun _ => (some [1], []), fun _ => (some sA, [])⟩).errors = [] ∧
    (run_pipeline ⟨(some sA, []), fun _ => (some sB, []),
        fun _ => correct_transcription (Except.ok ⟨200, emptyS, true, [⟨some emptyS⟩]⟩),
        fun _ => (some [1], []), fun _ => (some sA, [])⟩).output = none := by
  have h := empty_completion_silent_halt ⟨200, emptyS, true, [⟨some emptyS⟩]⟩ []
    ⟨(some sA, []), fun _ => (some sB, []),
      fun _ => correct_transcription (Except.ok ⟨200, emptyS, true, [⟨some emptyS⟩]⟩),
      fun _ => (some [1], []), fun _ => (some sA, [])⟩
    sA sB rfl rfl rfl rfl (by decide) rfl (by decide) rfl
  exact ⟨h.2.1, h.2.2.2.1, h.2.2.2.2⟩

/-- Counterexample to claim C4: a 200 response whose completion field is the
empty string is returned as a success with no error, so the stage does not
fail on an empty completion body. -/
theorem correction_no_empty_check_cex :
    (correct_transcription (Except.ok ⟨200, emptyS, true, [⟨some emptyS⟩]⟩)).1
        = some emptyS ∧
    (correct_transcription (Except.ok ⟨200, emptyS, true, [⟨some emptyS⟩]⟩)).2 = [] :=
  ⟨rfl, rfl⟩

/-- Claim C4 (amended): `correct_transcription` fails softly (returns `None`
with an `st.error` message, never a crash) on transport failure, on non-2xx
status, and on a body missing the `choices` entries, with the three spec
categories surfacing distinct messages; a missing `message`/`content` key
fails through the generic exception handler; a present completion string —
including the empty string — is returned as a success with no validation. -/
theorem correction_error_classification (resp : Except String CorrectionResponse) :
    (∀ e, resp = Except.error e →
      correct_transcription resp = (none, [msgCorrErr ++ e])) ∧
    (∀ r, resp = Except.ok r → r.status_code ≠ 200 →
      correct_transcription resp
        = (none, [msgApiErr ++ toString r.status_code ++ msgDash ++ r.body_text])) ∧
    (∀ r, resp = Except.ok r → r.status_code = 200 →
      (r.has_choices = false ∨ r.choices = []) →
      correct_transcription resp = (none, [msgFmtErr])) ∧
    (∀ r c rest, resp = Except.ok r → r.status_code = 200 → r.has_choices = true →
      r.choices = c :: rest →
      (∀ s, c.message_content = some s → correct_transcription resp = (some s, [])) ∧
      (c.message_content = none →
        correct_transcription resp = (none, [msgCorrErr ++ msgContentKey]))) := by
  refine ⟨?_, ?_, ?_, ?_⟩
  · intro e he
    subst he
    rfl
  · intro r hr hst
    subst hr
    simp [correct_transcription, hst]
  · intro r hr hst hbad
    subst hr
    rcases hbad with hfc | hemp
    · simp [correct_transcription, hst, hfc]
    · cases hhc : r.has_choices <;> simp [correct_transcription, hst, hemp, hhc]
  · intro r c rest hr hst hhc hch
    subst hr
    constructor
    · intro s hs
      simp [correct_transcription, hst, hhc, hch, hs]
    · intro hs
      simp [correct_transcription, hst, hhc, hch, hs]

/-- Witness for C4 (amended) at a concrete 404 response. -/
theorem correction_error_classification_wit :
    correct_transcription (Except.ok ⟨404, sB, true, []⟩)
      = (none, [msgApiErr ++ toString (404 : Nat) ++ msgDash ++ sB]) :=
  (correction_error_classification (Except.ok ⟨404, sB, true, []⟩)).2.1
    ⟨404, sB, true, []⟩ rfl (by decide)

/-- The chunk loop when every request succeeds: requests are issued for every
chunk in list order with the fixed config, and the transcripts concatenate in
that order. -/
theorem transcribeLoop_ok (client : RecognitionClient) (config : RecognitionConfig)
    (segs : List Int → List String) :
    ∀ chunks : List (List Int),
      (∀ c ∈ chunks, client config c = Except.ok (segs c)) →
      transcribeLoop client config chunks
        = (chunks.map (fun c => (config, c)), Except.ok ((chunks.map segs).flatten)) := by
  intro chunks
  induction chunks with
  | nil => intro _; rfl
  | cons c cs ih =>
    intro h
    have hc := h c (by simp)
    have hcs := ih (fun d hd => h d (by simp [hd]))
    simp [transcribeLoop, hc, hcs]

/-- The chunk loop aborts with the backend message of the first failing
chunk. -/
theorem transcribeLoop_err (client : RecognitionClient) (config : RecognitionConfig) :
    ∀ (pre : List (List Int)) (c : List Int) (post : List (List Int)) (e : String),
      (∀ d ∈ pre, ∃ s, client config d = Except.ok s) →
      client config c = Except.error e →
      (transcribeLoop client config (pre ++ c :: post)).2 = Except.error e := by
  intro pre
  induction pre with
  | nil =>
    intro c post e _ hc
    simp [transcribeLoop, hc]
  | cons d ds ih =>
    intro c post e hpre hc
    obtain ⟨s, hd⟩ := hpre d (by simp)
    have hrec := ih c post e (fun d2 hd2 => hpre d2 (by simp [hd2])) hc
    simp [transcribeLoop, hd, hrec]

/-- The request contents of the chunk loop are a prefix of the chunk list. -/
theorem transcribeLoop_requests_pre (client : RecognitionClient)
    (config : RecognitionConfig) :
    ∀ chunks : List (List Int), ∃ k,
      (transcribeLoop client config chunks).1.map Prod.snd = chunks.take k := by
  intro chunks
  induction chunks with
  | nil => exact ⟨0, rfl⟩
  | cons c cs ih =>
    cases hc : client config c with
    | error e => exact ⟨1, by simp [transcribeLoop, hc]⟩
    | ok s =>
      obtain ⟨k, hk⟩ := ih
      exact ⟨k + 1, by simp [transcribeLoop, hc, hk]⟩

/-- Every request of the chunk loop carries the one fixed config. -/
theorem transcribeLoop_requests_cfg (client : RecognitionClient)
    (config : RecognitionConfig) :
    ∀ chunks : List (List Int),
      ∀ q ∈ (transcribeLoop client config chunks).1, q.1 = config := by
  intro chunks
  induction chunks with
  | nil => intro q hq; simp [transcribeLoop] at hq
  | cons c cs ih =>
    intro q hq
    cases hc : client config c with
    | error e =>
      simp [transcribeLoop, hc] at hq
      rw [hq]
    | ok s =>
      simp [transcribeLoop, hc] at hq
      rcases hq with hq | hq
      · rw [hq]
      · exact ih q hq

/-- Claim C5: on the chunked path every chunk is submitted in sequence order,
each request reuses the single config whose sample rate came from the wave
header, and the output is the space-joined concatenation of the per-chunk
recognized segments in chunk order. -/
theorem transcription_order_and_join (client : RecognitionClient) (a : WaveAudio)
    (segs : List Int → List String)
    (hsize : a.byteSize > 10 * 1024 * 1024)
    (hok : ∀ c ∈ split_audio_into_chunks a.samples 60000,
      client (cfgOf a) c = Except.ok (segs c)) :
    (transcribe_audio client a).requests
      = (split_audio_into_chunks a.samples 60000).map (fun c => (cfgOf a, c)) ∧
    (∀ q ∈ (transcribe_audio client a).requests,
      q.1 = RecognitionConfig.mk lin16 a.sampleRate langEN) ∧
    (transcribe_audio client a).value
      = some (String.intercalate sp
          (((split_audio_into_chunks a.samples 60000).map segs).flatten)) ∧
    (transcribe_audio client a).errors = [] := by
  have hloop := transcribeLoop_ok client (cfgOf a) segs
    (split_audio_into_chunks a.samples 60000) hok
  have htr : transcribe_audio client a
      = ⟨(split_audio_into_chunks a.samples 60000).map (fun c => (cfgOf a, c)),
          some (String.intercalate sp
            (((split_audio_into_chunks a.samples 60000).map segs).flatten)), []⟩ := by
    simp [transcribe_audio, hsize, hloop]
  rw [htr]
  refine ⟨rfl, ?_, rfl, rfl⟩
  intro q hq
  simp only [List.mem_map] at hq
  obtain ⟨c, _, hc⟩ := hq
  rw [← hc]
  rfl

/-- Witness for C5 at a concrete oversize one-chunk waveform and a backend
that answers every request. -/
theorem transcription_order_and_join_wit :
    (transcribe_audio (fun _ _ => Except.ok [sB]) ⟨16000, 10485761, [7]⟩).requests
      = [(RecognitionConfig.mk lin16 16000 langEN, [7])] ∧
    (transcribe_audio (fun _ _ => Except.ok [sB]) ⟨16000, 10485761, [7]⟩).value = some sB ∧
    (transcribe_audio (fun _ _ => Except.ok [sB]) ⟨16000, 10485761, [7]⟩).errors = [] := by
  have h := transcription_order_and_join (fun _ _ => Except.ok [sB])
    ⟨16000, 10485761, [7]⟩ (fun _ => [sB]) (by decide) (fun c _ => rfl)
  exact ⟨h.1.trans (by decide), (h.2.2.1).trans (by decide), h.2.2.2⟩

/-- Claim C6 (amended): if a chunk recognition call raises while all
earlier chunks succeeded, the stage returns `None` (no partial transcript)
and surfaces exactly the backend exception message; the surfaced result does
not include the failing chunk index. -/
theorem transcription_fail_fast (client : RecognitionClient) (a : WaveAudio)
    (pre post : List (List Int)) (c : List Int) (e : String)
    (hsize : a.byteSize > 10 * 1024 * 1024)
    (hsplit : split_audio_into_chunks a.samples 60000 = pre ++ c :: post)
    (hpre : ∀ d ∈ pre, ∃ s, client (cfgOf a) d = Except.ok s)
    (hc : client (cfgOf a) c = Except.error e) :
    (transcribe_audio client a).value = none ∧
    (transcribe_audio client a).errors = [msgTransErr ++ e] := by
  have herr := transcribeLoop_err client (cfgOf a) pre c post e hpre hc
  rw [← hsplit] at herr
  constructor <;> simp [transcribe_audio, hsize, herr]

/-- Witness for C6 (amended) at a concrete failing backend. -/
theorem transcription_fail_fast_wit :
    (transcribe_audio (fun _ _ => Except.error msgBoom) ⟨16000, 10485761, [7]⟩).value
        = none ∧
    (transcribe_audio (fun _ _ => Except.error msgBoom) ⟨16000, 10485761, [7]⟩).errors
        = [msgTransErr ++ msgBoom] :=
  transcription_fail_fast (fun _ _ => Except.error msgBoom) ⟨16000, 10485761, [7]⟩
    [] [] [7] msgBoom (by decide) (by decide) (fun d hd => absurd hd (List.not_mem_nil d)) rfl

/-- The chunked path of `transcribe_audio` when the loop aborts: value `None`
and exactly the backend message surfaced. -/
theorem transcribe_audio_chunked_err (client : RecognitionClient) (a : WaveAudio)
    (e : String) (h : a.byteSize > 10 * 1024 * 1024)
    (herr : (transcribeLoop client (cfgOf a) (split_audio_into_chunks a.samples 60000)).2
      = Except.error e) :
    (transcribe_audio client a).value = none ∧
    (transcribe_audio client a).errors = [msgTransErr ++ e] := by
  constructor <;> simp [transcribe_audio, h, herr]

theorem bigSamples_take :
    List.take 60000 bigSamples = List.replicate 60000 (0 : Int) := by
  unfold bigSamples
  have h1 := List.take_left (List.replicate 60000 (0 : Int)) (List.replicate 60000 (1 : Int))
  rw [List.length_replicate] at h1
  exact h1

theorem bigSamples_drop :
    (List.drop 60000 bigSamples).take 60000 = List.replicate 60000 (1 : Int) := by
  unfold bigSamples
  have h2 := List.drop_left (List.replicate 60000 (0 : Int)) (List.replicate 60000 (1 : Int))
  rw [List.length_replicate] at h2
  rw [h2]
  exact List.take_of_length_le (Nat.le_of_eq (List.length_replicate 60000 (1 : Int)))

theorem bigSamples_chunks :
    split_audio_into_chunks bigSamples 60000
      = [List.replicate 60000 (0 : Int), List.replicate 60000 (1 : Int)] := by
  have hlen : bigSamples.length = 120000 := by
    unfold bigSamples
    rw [List.length_append, List.length_replicate, List.length_replicate]
  rw [split_audio_eq, hlen]
  have hn : (120000 + 60000 - 1) / 60000 = 2 := by norm_num
  rw [hn]
  have hr : List.range 2 = [0, 1] := rfl
  rw [hr]
  simp only [List.map_cons, List.map_nil, Nat.zero_mul, List.drop_zero, Nat.one_mul]
  rw [bigSamples_take]
  rw [bigSamples_drop]

theorem head_rep0 : (List.replicate 60000 (0 : Int)).head? = some 0 := by
  rw [List.head?_replicate]
  norm_num

theorem head_rep1 : (List.replicate 60000 (1 : Int)).head? = some 1 := by
  rw [List.head?_replicate]
  norm_num

/-- Counterexample to claim C6: two chunked runs whose first failing chunk
index differs (0 versus 1) produce identical stage results (`None` plus the
same error message), so the result surfaced to the caller cannot carry the
failing chunk index. -/
theorem transcription_no_chunk_index_cex :
    ((transcribe_audio clientA bigAudio).value, (transcribe_audio clientA bigAudio).errors)
      = ((transcribe_audio clientB bigAudio).value,
          (transcribe_audio clientB bigAudio).errors) ∧
    firstFailIdx clientA (cfgOf bigAudio) (split_audio_into_chunks bigAudio.samples 60000)
      = some 0 ∧
    firstFailIdx clientB (cfgOf bigAudio) (split_audio_into_chunks bigAudio.samples 60000)
      = some 1 := by
  have hchunks : split_audio_into_chunks bigAudio.samples 60000
      = [List.replicate 60000 (0 : Int), List.replicate 60000 (1 : Int)] :=
    bigSamples_chunks
  have hA0 : ∀ cfg, clientA cfg (List.replicate 60000 (0 : Int)) = Except.error msgBoom := by
    intro cfg
    simp only [clientA]
    rw [head_rep0, if_pos rfl]
  have hB0 : ∀ cfg, clientB cfg (List.replicate 60000 (0 : Int)) = Except.ok [msgX] := by
    intro cfg
    simp only [clientB]
    rw [head_rep0, if_pos rfl]
  have hB1 : ∀ cfg, clientB cfg (List.replicate 60000 (1 : Int)) = Except.error msgBoom := by
    intro cfg
    simp only [clientB]
    rw [head_rep1, if_neg (by decide)]
  have hsize : bigAudio.byteSize > 10 * 1024 * 1024 := by norm_num [bigAudio]
  have hloopA : (transcribeLoop clientA (cfgOf bigAudio)
      [List.replicate 60000 (0 : Int), List.replicate 60000 (1 : Int)]).2
        = Except.error msgBoom := by
    simp only [transcribeLoop, hA0]
  have hloopB : (transcribeLoop clientB (cfgOf bigAudio)
      [List.replicate 60000 (0 : Int), List.replicate 60000 (1 : Int)]).2
        = Except.error msgBoom := by
    simp only [transcribeLoop, hB0, hB1]
  have hA := transcribe_audio_chunked_err clientA bigAudio msgBoom hsize
    (by rw [hchunks]; exact hloopA)
  have hB := transcribe_audio_chunked_err clientB bigAudio msgBoom hsize
    (by rw [hchunks]; exact hloopB)
  refine ⟨?_, ?_, ?_⟩
  · rw [hA.1, hA.2, hB.1, hB.2]
  · rw [hchunks]
    simp only [firstFailIdx, hA0]
  · rw [hchunks]
    simp only [firstFailIdx, hB0, hB1, Option.map_some']

/-- Claim C8: chunking is applied exactly when the compressed byte size
exceeds the 10 MiB ceiling — above it the requests are drawn from the chunk
list in order (all of them when no call fails), below or at it the whole
waveform is submitted as one single request. -/
theorem transcription_chunk_trigger (client : RecognitionClient) (a : WaveAudio) :
    (¬ a.byteSize > 10 * 1024 * 1024 →
      (transcribe_audio client a).requests = [(cfgOf a, a.samples)]) ∧
    (a.byteSize > 10 * 1024 * 1024 →
      (∃ k, (transcribe_audio client a).requests.map Prod.snd
        = (split_audio_into_chunks a.samples 60000).take k) ∧
      ∀ q ∈ (transcribe_audio client a).requests, q.1 = cfgOf a) := by
  constructor
  · intro h
    cases hres : client (cfgOf a) a.samples <;> simp [transcribe_audio, h, hres]
  · intro h
    have hreq : (transcribe_audio client a).requests
        = (transcribeLoop client (cfgOf a) (split_audio_into_chunks a.samples 60000)).1 := by
      cases hres : (transcribeLoop client (cfgOf a)
          (split_audio_into_chunks a.samples 60000)).2 <;>
        simp [transcribe_audio, h, hres]
    rw [hreq]
    exact ⟨transcribeLoop_requests_pre client (cfgOf a) _,
      transcribeLoop_requests_cfg client (cfgOf a) _⟩

/-- Witness for C8 at a concrete undersized waveform: one request holding the
whole waveform. -/
theorem transcription_chunk_trigger_wit :
    (transcribe_audio (fun _ _ => Except.ok [sB]) ⟨16000, 5, [7]⟩).requests
      = [(cfgOf ⟨16000, 5, [7]⟩, [7])] :=
  (transcription_chunk_trigger (fun _ _ => Except.ok [sB]) ⟨16000, 5, [7]⟩).1 (by decide)

/-- No chunk-numbered temp file can be any other temp file. -/
theorem not_mem_chunkmap (f : FileId) (n : Nat) (h : ∀ i, FileId.chunk i ≠ f) :
    f ∉ (List.range n).map FileId.chunk := by
  intro hmem
  obtain ⟨i, -, hi⟩ := List.mem_map.mp hmem
  exact h i hi

theorem upload_not_mem_chunkmap (n : Nat) :
    FileId.upload ∉ (List.range n).map FileId.chunk :=
  not_mem_chunkmap FileId.upload n (fun _ hc => FileId.noConfusion hc)

theorem muxtmp_not_mem_chunkmap (n : Nat) :
    FileId.muxtmp ∉ (List.range n).map FileId.chunk :=
  not_mem_chunkmap FileId.muxtmp n (fun _ hc => FileId.noConfusion hc)

theorem output_not_mem_chunkmap (n : Nat) :
    FileId.output ∉ (List.range n).map FileId.chunk :=
  not_mem_chunkmap FileId.output n (fun _ hc => FileId.noConfusion hc)

/-- Removing one named temp file leaves the chunk files untouched. -/
theorem filter_chunkmap (f : FileId) (n : Nat) (h : ∀ i, FileId.chunk i ≠ f) :
    List.filter (fun g => !(g == f)) ((List.range n).map FileId.chunk)
      = (List.range n).map FileId.chunk := by
  apply List.filter_eq_self.mpr
  intro a ha
  obtain ⟨i, -, rfl⟩ := List.mem_map.mp ha
  simpa using h i

theorem filter_chunkmap_upload (n : Nat) :
    List.filter (fun g => !(g == FileId.upload)) ((List.range n).map FileId.chunk)
      = (List.range n).map FileId.chunk :=
  filter_chunkmap FileId.upload n (fun _ hc => FileId.noConfusion hc)

theorem filter_chunkmap_muxtmp (n : Nat) :
    List.filter (fun g => !(g == FileId.muxtmp)) ((List.range n).map FileId.chunk)
      = (List.range n).map FileId.chunk :=
  filter_chunkmap FileId.muxtmp n (fun _ hc => FileId.noConfusion hc)

theorem filter_chunkmap_output (n : Nat) :
    List.filter (fun g => !(g == FileId.output)) ((List.range n).map FileId.chunk)
      = (List.range n).map FileId.chunk :=
  filter_chunkmap FileId.output n (fun _ hc => FileId.noConfusion hc)

/-- Every chunk file the run created is in the chunk-file segment. -/
theorem chunk_mem_chunkmap (i n : Nat) (h : i < n) :
    FileId.chunk i ∈ (List.range n).map FileId.chunk :=
  List.mem_map.mpr ⟨i, List.mem_range.mpr h, rfl⟩

/-- Counterexample to claim C3: a fully successful run (extraction,
compression, recognition, correction, synthesis and mux all succeed, no
chunking) ends with the extracted and compressed waveform temp files still
live, and a run whose mux fails during the video write ends with the
intermediate mp3 still live — temporary files are not all removed. -/
theorem cleanup_not_guaranteed_cex :
    pipelineFiles ⟨ExtractOutcome.ok, true, false, 0, true, true, true, true, MuxOutcome.ok⟩
      = [FileId.extracted, FileId.compressed] ∧
    FileId.muxtmp ∈ pipelineFiles
      ⟨ExtractOutcome.ok, true, false, 0, true, true, true, true, MuxOutcome.writeFail⟩ := by
  decide

set_option maxHeartbeats 8000000 in
/-- Claim C3 (amended): only the uploaded video copy is removed on every
path; the extracted waveform file (whenever it was created), the normalized
(compressed) copy and the chunk files are never removed; the muxer
intermediate mp3 is removed only when muxing succeeds and stays live when the
mux stage fails after creating it; the output file is removed only on the
full success path. -/
theorem cleanup_actual_behavior (env : FileEnv) :
    FileId.upload ∉ pipelineFiles env ∧
    (env.extract ≠ ExtractOutcome.loadFail → FileId.extracted ∈ pipelineFiles env) ∧
    (env.extract = ExtractOutcome.ok → env.compressOk = true →
      FileId.compressed ∈ pipelineFiles env) ∧
    (reachedMux env = true → env.mux = MuxOutcome.ok →
      FileId.muxtmp ∉ pipelineFiles env ∧ FileId.output ∉ pipelineFiles env) ∧
    (reachedMux env = true →
      (env.mux = MuxOutcome.audioFail ∨ env.mux = MuxOutcome.writeFail) →
      FileId.muxtmp ∈ pipelineFiles env) ∧
    (env.extract = ExtractOutcome.ok → env.compressOk = true → env.oversize = true →
      ∀ i, i < env.numChunks → FileId.chunk i ∈ pipelineFiles env) := by
  obtain ⟨ext, cok, osz, n, rok, ttr, ctr, syn, mux⟩ := env
  cases ext <;> cases mux <;> cases cok <;> cases osz <;> cases rok <;>
    cases ttr <;> cases ctr <;> cases syn <;>
    simp [pipelineFiles, extractFiles, transcribeFiles, replaceFiles, removeFile,
      reachedMux, filter_chunkmap_upload, filter_chunkmap_muxtmp, filter_chunkmap_output,
      upload_not_mem_chunkmap, muxtmp_not_mem_chunkmap, output_not_mem_chunkmap,
      chunk_mem_chunkmap]

/-- Witness for C3 (amended) at a concrete chunked run whose mux write
fails. -/
theorem cleanup_actual_behavior_wit :
    FileId.upload ∉ pipelineFiles
      ⟨ExtractOutcome.ok, true, true, 3, true, true, true, true, MuxOutcome.writeFail⟩ ∧
    FileId.muxtmp ∈ pipelineFiles
      ⟨ExtractOutcome.ok, true, true, 3, true, true, true, true, MuxOutcome.writeFail⟩ ∧
    FileId.chunk 0 ∈ pipelineFiles
      ⟨ExtractOutcome.ok, true, true, 3, true, true, true, true, MuxOutcome.writeFail⟩ := by
  have h := cleanup_actual_behavior
    ⟨ExtractOutcome.ok, true, true, 3, true, true, true, true, MuxOutcome.writeFail⟩
  exact ⟨h.1, h.2.2.2.2.1 (by decide) (Or.inr rfl),
    h.2.2.2.2.2 rfl rfl rfl 0 (by decide)⟩
